import Mathlib

/-!
Shallow embedding of the kart-rentals booking flow
(`src/app/screens/*.screen.tsx`).

JavaScript numbers are modelled as exact rationals (the spec, §4.2, says
binary-float drift is an accuracy limitation and not part of the contract),
strings as Lean `String`, and heterogeneous Firestore values as the
inductive `JSValue`.  Firestore collections are association lists from
document id to document, and the atomic `batchWrite` is modelled by
building the whole post-state at once, guarded by a `commitOk` oracle that
stands for "the backend accepted the batch".
-/

namespace KartRentals

/-- A stored (Firestore / JSON) value as seen by the screens. -/
inductive JSValue where
  | null : JSValue
  | bool : Bool → JSValue
  | num : Rat → JSValue
  | str : String → JSValue
  | arr : List JSValue → JSValue
  | obj : List (String × JSValue) → JSValue

/-- JavaScript truthiness test (`!raw`): null/undefined, `false`, `0` and
the empty string are falsy; arrays and objects are always truthy. -/
def jsFalsy : JSValue → Bool
  | .null => true
  | .bool b => !b
  | .num q => q == 0
  | .str s => s == ""
  | .arr _ => false
  | .obj _ => false

/-- Pad a decimal digit string on the left with zeros up to width `k`. -/
def padZeros (k : Nat) (s : String) : String :=
  String.mk (List.replicate (k - s.length) '0') ++ s

/-- Model of the JavaScript number-to-string coercion, exact for integers
and for finite decimal fractions of up to ten places (the shapes stored
prices actually take); other rationals fall back to the raw `toString`. -/
def jsNumToString (q : Rat) : String :=
  if q.den = 1 then toString q.num
  else
    match (List.range 11).find? (fun k => (q * (10 : Rat) ^ k).den = 1) with
    | some k =>
        let n := (q * (10 : Rat) ^ k).num
        let sgn := if n < 0 then "-" else ""
        let m := n.natAbs
        sgn ++ toString (m / 10 ^ k) ++ "." ++ padZeros k (toString (m % 10 ^ k))
    | none => toString q

mutual
/-- Model of the JavaScript `String(v)` coercion.  (For nested arrays JS
maps `null` elements to the empty string; that corner is not exercised by
any stored shape and is modelled as `"null"`.) -/
def jsString : JSValue → String
  | .null => "null"
  | .bool b => cond b "true" "false"
  | .num q => jsNumToString q
  | .str s => s
  | .arr xs => String.intercalate "," (jsStringList xs)
  | .obj _ => "[object Object]"

/-- `String` coercion mapped over a list of values. -/
def jsStringList : List JSValue → List String
  | [] => []
  | x :: xs => jsString x :: jsStringList xs
end

/-! ### Price normalization
`Payment.screen.tsx:184-185` and `Review.screen.tsx:78`:
`parseFloat(String(d.daily_price ?? '0').replace(/[^0-9.-]+/g, '')) || 0`. -/

/-- `String(v).replace(/[^0-9.-]+/g, '')`: keep only digits, `.` and `-`. -/
def stripPriceChars (s : String) : List Char :=
  s.data.filter (fun c => c.isDigit || c == '.' || c == '-')

/-- Numeric value of a decimal digit character. -/
def digitVal (c : Char) : Nat := c.toNat - 48

/-- Numeric value of a run of decimal digit characters. -/
def digitsToNat (ds : List Char) : Nat :=
  ds.foldl (fun a c => a * 10 + digitVal c) 0

/-- Split off the longest leading run of decimal digits. -/
def takeDigits : List Char → List Char × List Char
  | [] => ([], [])
  | c :: cs =>
      if c.isDigit then
        let p := takeDigits cs
        (c :: p.1, p.2)
      else ([], c :: cs)

/-- The syntactic part of JavaScript `parseFloat` on the post-strip
alphabet (digits, `.`, `-`): an optional leading minus sign, then a longest
prefix `digits [. digits]`; `none` when no digit is consumed (JS `NaN`).
Returns (negative, integer-part value, fraction-part value, fraction
length). -/
def jsParseFloatParts (cs : List Char) : Option (Bool × Nat × Nat × Nat) :=
  let signed := match cs with
    | '-' :: t => (true, t)
    | t => (false, t)
  let p1 := takeDigits signed.2
  let fracDs : List Char := match p1.2 with
    | '.' :: t => (takeDigits t).1
    | _ => []
  if p1.1.isEmpty && fracDs.isEmpty then none
  else some (signed.1, digitsToNat p1.1, digitsToNat fracDs, fracDs.length)

/-- The numeric value of a parsed significand. -/
def partsToRat (p : Bool × Nat × Nat × Nat) : Rat :=
  let v : Rat := (p.2.1 : Rat) + (p.2.2.1 : Rat) / (10 : Rat) ^ p.2.2.2
  if p.1 then -v else v

/-- Model of JavaScript `parseFloat` restricted to the post-strip alphabet. -/
def jsParseFloat (cs : List Char) : Option Rat :=
  (jsParseFloatParts cs).map partsToRat

/-- The screens' price normalizer:
`parseFloat(String(raw ?? '0').replace(/[^0-9.-]+/g, '')) || 0`.
A parsed `NaN` (`none`) falls back to `0`; a parsed `0` is also mapped to
`0` by `|| 0`, the same value. -/
def normalizePrice (v : JSValue) : Rat :=
  let raw : String := match v with
    | .null => "0"
    | w => jsString w
  match jsParseFloat (stripPriceChars raw) with
  | none => 0
  | some q => q

/-! ### Add-on field normalization
`AddOns.screen.tsx:46-78` (`parseAddonsField`) and the `Set`-based
deduplication of its caller (`load`, lines 111-132). -/

/-- JavaScript `s.trim()`: drop leading and trailing whitespace.  (Defined
over the character list so that it evaluates inside the kernel.) -/
def jsTrim (s : String) : String :=
  String.mk (((s.data.dropWhile Char.isWhitespace).reverse.dropWhile
    Char.isWhitespace).reverse)

/-- JavaScript `s.split(',')` (also over the character list): the empty
string yields `[""]`, like the JS original. -/
def splitOnCommaAux : List Char → List Char → List String
  | [], acc => [String.mk acc.reverse]
  | c :: cs, acc =>
      if c == ',' then String.mk acc.reverse :: splitOnCommaAux cs []
      else splitOnCommaAux cs (c :: acc)

/-- JavaScript `s.split(',')`. -/
def jsSplitOnComma (s : String) : List String := splitOnCommaAux s.data []

/-- Drop leading JSON whitespace characters. -/
def skipWs : List Char → List Char
  | [] => []
  | c :: cs =>
      if c == ' ' || c == '\t' || c == '\n' || c == '\r' then skipWs cs else c :: cs

/-- Parse the body of a JSON string literal (after the opening quote),
returning the decoded string and the input following the closing quote.
Escapes `\" \\ \/ \n \t \r` are decoded; other escapes are rejected. -/
def parseJsonStringBody : Nat → List Char → List Char → Option (String × List Char)
  | 0, _, _ => none
  | _, [], _ => none
  | fuel + 1, c :: rest, acc =>
      if c == '"' then some (String.mk acc.reverse, rest)
      else if c == '\\' then
        match rest with
        | [] => none
        | e :: rest2 =>
            let esc : Option Char :=
              if e == '"' then some '"'
              else if e == '\\' then some '\\'
              else if e == '/' then some '/'
              else if e == 'n' then some '\n'
              else if e == 't' then some '\t'
              else if e == 'r' then some '\r'
              else none
            match esc with
            | none => none
            | some ch => parseJsonStringBody fuel rest2 (ch :: acc)
      else parseJsonStringBody fuel rest (c :: acc)

/-- Parse the elements of a non-empty JSON array of string literals, up to
and including the closing bracket. -/
def parseJsonElems : Nat → List Char → List String → Option (List String × List Char)
  | 0, _, _ => none
  | fuel + 1, cs, acc =>
      match skipWs cs with
      | '"' :: rest =>
          match parseJsonStringBody rest.length rest [] with
          | none => none
          | some (s, rest2) =>
              match skipWs rest2 with
              | ']' :: tail => some ((s :: acc).reverse, tail)
              | ',' :: tail => parseJsonElems fuel tail (s :: acc)
              | _ => none
      | _ => none

/-- Model of the external `JSON.parse` restricted to flat arrays of string
literals; any other document yields `none`.  The restriction is faithful to
the caller: valid non-array JSON is discarded by its `Array.isArray` guard
and falls through to the manual bracket-split path exactly as a parse
failure does, and for flat arrays of unquoted primitives the manual path
computes the same labels. -/
def jsonParseArrayStrings (s : String) : Option (List String) :=
  match skipWs s.data with
  | '[' :: rest =>
      match skipWs rest with
      | ']' :: tail => if (skipWs tail).isEmpty then some [] else none
      | _ =>
          match parseJsonElems rest.length rest [] with
          | some (elems, tail) => if (skipWs tail).isEmpty then some elems else none
          | none => none
  | _ => none

/-- `s.replace(/^\[|\]$/g, '')`: drop one leading `[` and one trailing `]`. -/
def stripOuterBrackets (s : String) : String :=
  let l1 := match s.data with
    | '[' :: t => t
    | t => t
  let l2 := match l1.reverse with
    | ']' :: rt => rt.reverse
    | _ => l1
  String.mk l2

/-- `x.replace(/^["']|["']$/g, '')`: drop one leading and one trailing
quote character (double or single). -/
def stripQuotesOnce (s : String) : String :=
  let l1 := match s.data with
    | c :: t => if c == '"' || c == '\'' then t else c :: t
    | [] => []
  let l2 := match l1.reverse with
    | c :: rt => if c == '"' || c == '\'' then rt.reverse else l1
    | [] => []
  String.mk l2

/-- `parseAddonsField` (`AddOns.screen.tsx:46-78`): normalize the four
stored encodings of an add-on list into a list of trimmed non-empty
labels.  Falsy input gives `[]`; arrays map `String` over the elements;
objects over their values; strings are trimmed, tried as JSON, and
otherwise bracket-stripped and comma-split with per-piece quote stripping. -/
def parseAddonsField (raw : JSValue) : List String :=
  if jsFalsy raw then []
  else
    match raw with
    | .arr xs => ((jsStringList xs).map jsTrim).filter (· ≠ "")
    | .obj kvs => ((jsStringList (kvs.map (·.2))).map jsTrim).filter (· ≠ "")
    | .str s0 =>
        let s := jsTrim s0
        match jsonParseArrayStrings s with
        | some p => (p.map jsTrim).filter (· ≠ "")
        | none =>
            let stripped := jsTrim (stripOuterBrackets s)
            if stripped = "" then []
            else
              ((jsSplitOnComma stripped).map (fun x => jsTrim (stripQuotesOnce x))).filter
                (· ≠ "")
    | _ => []

/-- `Array.from(new Set(l))`: first-occurrence-order deduplication, as
performed by the `load` caller of `parseAddonsField`. -/
def jsSetOfList (l : List String) : List String :=
  l.foldl (fun acc x => if x ∈ acc then acc else acc ++ [x]) []

/-- The add-on normalizer as observed end to end: parse one stored
encoding, then deduplicate in first-occurrence order. -/
def normalizeAddons (raw : JSValue) : List String :=
  jsSetOfList (parseAddonsField raw)

/-! ### Pricing calculator
`Payment.screen.tsx:179-200`, `Review.screen.tsx:146-149`. -/

/-- `(+x.toFixed(2))`: round to two decimal places (half away from zero on
ties does not arise for the stored money values; Mathlib `round` is used). -/
def round2 (q : Rat) : Rat := ((round (q * 100) : Int) : Rat) / 100

/-- The computed totals breakdown. -/
structure Totals where
  base : Rat
  tax : Rat
  deposit : Rat
  total : Rat
deriving DecidableEq, Repr

/-- The pricing calculator over (unit price, quantity) pairs:
`base = Σ price·qty` (a `reduce` in `Review.screen.tsx:146`),
`tax = +(base*0.10).toFixed(2)`, `deposit = 50`,
`total = +(base+tax+deposit).toFixed(2)`. -/
def calcTotals (items : List (Rat × Rat)) : Totals :=
  let base := items.foldl (fun s p => s + p.1 * p.2) 0
  let tax := round2 (base * (1 / 10))
  let deposit : Rat := 50
  let total := round2 (base + tax + deposit)
  ⟨base, tax, deposit, total⟩

/-! ### Data model (§3 of the spec, field shapes from the screens) -/

/-- A typed Firestore field value, for the documents whose claims are
field-level (customer profiles, payment summaries). -/
inductive FieldVal where
  | str : String → FieldVal
  | nullV : FieldVal
  | num : Rat → FieldVal
  | time : Int → FieldVal
deriving DecidableEq, Repr

/-- A document as an ordered field map. -/
abbrev Doc := List (String × FieldVal)

/-- First-match association lookup (Firestore document/field access). -/
def assocGet {α : Type} (l : List (String × α)) (k : String) : Option α :=
  (l.find? (·.1 == k)).map (·.2)

/-- Replace the value at a key, or append the pair when the key is absent. -/
def assocSet {α : Type} (l : List (String × α)) (k : String) (v : α) : List (String × α) :=
  if l.any (·.1 == k) then l.map (fun kv => if kv.1 == k then (k, v) else kv)
  else l ++ [(k, v)]

/-- Value of a named field of a document. -/
def getField (d : Doc) (k : String) : Option FieldVal := assocGet d k

/-- `set(ref, payload, {merge: true})` on an existing document: fields named
in the payload are overwritten (including with `null`), all others kept. -/
def mergeSet (old payload : Doc) : Doc :=
  old.filter (fun kv => !payload.any (·.1 == kv.1)) ++ payload

/-- A catalog item document (`carts` collection).  `daily_price` is stored
untyped; `passangers` is the source's misspelled primary field name with
`passengers` as fallback. -/
structure CartDoc where
  brand : String
  model : String
  image_url : String
  daily_price : JSValue
  passangers : Option String
  passengers : Option String
  battery : String

/-- The nested draft-booking record of a session
(`partialBooking` in the screens). -/
structure DraftBooking where
  carts : List String
  addons : JSValue
  dates : Option (Int × Int)

/-- A session document (`sessions` collection). -/
structure Session where
  customerId : String
  status : String
  draft : Option DraftBooking
  bookingRef : Option String
  createdAt : Int
  updatedAt : Int

/-- A finalized line item in a booking snapshot (`cartsForBooking`). -/
structure CartLine where
  id : String
  brand : String
  model : String
  image_url : String
  daily_price : Rat
  qty : Nat

/-- The frozen draft snapshot embedded in a booking: the spread
`{...partial, carts: cartsForBooking, totals}`. -/
structure BookingSnap where
  carts : List CartLine
  addons : JSValue
  dates : Option (Int × Int)
  totals : Totals

/-- A booking document (`bookings` collection). -/
structure BookingDoc where
  customerId : String
  createdAt : Int
  status : String
  snap : BookingSnap
  sessionId : String

/-- The whole document store, one association list per collection. -/
structure DBState where
  sessions : List (String × Session)
  carts : List (String × CartDoc)
  customers : List (String × Doc)
  bookings : List (String × BookingDoc)
  payments : List (String × Doc)

/-! ### Booking finalizer (`Payment.screen.tsx:152-273`, `handleConfirm`) -/

/-- The personal-details form state of the payment screen. -/
structure Personal where
  firstName : String
  lastName : String
  dob : String
  address : String
  city : String
  state : String
  country : String
  zipcode : String

/-- All finalization-relevant inputs of the payment screen, including the
card fields that are collected in the UI (`cardNumberInput`, `cvvInput`)
whether or not they are ever persisted. -/
structure PaymentInputs where
  personal : Personal
  cardMasked : String
  cardBrand : String
  cardExpiry : String
  cardNumberInput : String
  nameOnCardInput : String
  expiryInput : String
  cvvInput : String
  saveCard : Bool
  agreeRental : Bool
  agreeRules : Bool

/-- `x || null` on a form field: the empty string is stored as `null`. -/
def strOrNull (s : String) : FieldVal := if s = "" then .nullV else .str s

/-- The customer-profile upsert payload built at finalization
(`Payment.screen.tsx:207-221`). -/
def customerPayload (p : Personal) (now : Int) : Doc :=
  [("firstName", .str (jsTrim p.firstName)), ("lastName", .str (jsTrim p.lastName)),
   ("dob", strOrNull p.dob), ("address", strOrNull p.address),
   ("city", strOrNull p.city), ("state", strOrNull p.state),
   ("country", strOrNull p.country), ("zipcode", strOrNull p.zipcode),
   ("updatedAt", .time now)]

/-- `s.slice(-4)`: the last four characters (the whole string when shorter). -/
def jsSliceLast4 (s : String) : String :=
  String.mk (s.data.drop (s.data.length - 4))

/-- The `last4` field of the payment-summary record:
`cardMasked ? cardMasked.slice(-4) : (cardNumberInput ? cardNumberInput.slice(-4) : null)`. -/
def last4Field (cardMasked cardNumberInput : String) : FieldVal :=
  if cardMasked ≠ "" then .str (jsSliceLast4 cardMasked)
  else if cardNumberInput ≠ "" then .str (jsSliceLast4 cardNumberInput)
  else .nullV

/-- The optional payment-summary record (`Payment.screen.tsx:246-263`). -/
def paymentDocOf (uid sid bid : String) (total : Rat) (inp : PaymentInputs)
    (now : Int) : Doc :=
  [("customerId", .str uid), ("sessionId", .str sid), ("bookingId", .str bid),
   ("amount", .num total), ("currency", .str "USD"),
   ("method", .str (if inp.cardBrand = "" then "card" else inp.cardBrand)),
   ("status", .str "saved"), ("stripeCustomerId", .nullV),
   ("paymentIntentId", .nullV),
   ("last4", last4Field inp.cardMasked inp.cardNumberInput),
   ("brand", strOrNull inp.cardBrand),
   ("expiry", strOrNull (if inp.expiryInput ≠ "" then inp.expiryInput else inp.cardExpiry)),
   ("createdAt", .time now)]

/-- The resolved line items and base price of the authoritative pricing
pass (`Payment.screen.tsx:179-196`): each selected cart id is looked up,
missing ids are skipped, prices are normalized, and every line gets
quantity 1. -/
def resolveLines (st : DBState) (ids : List String) : List CartLine :=
  ids.filterMap (fun cid =>
    (assocGet st.carts cid).map (fun d =>
      ⟨cid, d.brand, d.model, d.image_url, normalizePrice d.daily_price, 1⟩))

/-- The booking document created by finalization: status `confirmed`, the
snapshot of the resolved line items, and the recomputed totals
(`Payment.screen.tsx:179-200` and `223-235`). -/
def bookingOf (uid sid : String) (now : Int) (st : DBState) (d : DraftBooking) :
    BookingDoc :=
  let lines := resolveLines st d.carts
  let base := (lines.map (fun c => c.daily_price * (c.qty : Rat))).sum
  let tax := round2 (base * (1 / 10))
  let deposit : Rat := 50
  let total := round2 (base + tax + deposit)
  ⟨uid, now, "confirmed", ⟨lines, d.addons, d.dates, ⟨base, tax, deposit, total⟩⟩, sid⟩

/-- The state produced by a successful `batch.commit()` of the finalizer:
customer upsert with merge, booking creation, session update to `booked`,
and the optional payment-summary record, all applied at once. -/
def successState (uid sid : String) (inp : PaymentInputs) (now : Int)
    (st : DBState) (sess : Session) (d : DraftBooking) : DBState :=
  let bid := "b" ++ toString st.bookings.length
  let pid := "p" ++ toString st.payments.length
  let booking := bookingOf uid sid now st d
  { st with
      customers := assocSet st.customers uid
        (mergeSet ((assocGet st.customers uid).getD []) (customerPayload inp.personal now)),
      bookings := st.bookings ++ [(bid, booking)],
      sessions := assocSet st.sessions sid
        { sess with status := "booked", bookingRef := some bid, updatedAt := now },
      payments := if inp.saveCard then
          st.payments ++ [(pid, paymentDocOf uid sid bid booking.snap.totals.total inp now)]
        else st.payments }

/-- `handleConfirm` (`Payment.screen.tsx:152-273`).  Returns the post-state
together with either the new booking id or the user-facing error.  All four
writes (customer upsert, booking creation, session update, optional payment
record) form one `db.batch()`; `commitOk` models whether the backend
accepts that atomic commit, and on every failure path the state is returned
unchanged. -/
def handleConfirm (uid? sessionId? : Option String) (inp : PaymentInputs)
    (now : Int) (commitOk : Bool) (st : DBState) : DBState × Except String String :=
  match uid? with
  | none => (st, .error "Not signed in")
  | some uid =>
    match sessionId? with
    | none => (st, .error "Missing session")
    | some sid =>
      if jsTrim inp.personal.firstName = "" ∨ jsTrim inp.personal.lastName = "" then
        (st, .error "Missing info")
      else if ¬ (inp.agreeRental ∧ inp.agreeRules) then
        (st, .error "Need agreements")
      else
        match assocGet st.sessions sid with
        | none => (st, .error "Session not found")
        | some sess =>
          match sess.draft with
          | none => (st, .error "No carts selected in session.")
          | some draft =>
            if draft.carts = [] then (st, .error "No carts selected in session.")
            else if ¬ commitOk then (st, .error "commit failed")
            else
              (successState uid sid inp now st sess draft,
               .ok ("b" ++ toString st.bookings.length))

/-! ### The other session operations -/

/-- Session creation (`Landing.screen.tsx:162-174`): a fresh document with
status `in_progress` and a draft holding the selected cart ids, an empty
add-ons object and no dates. -/
def createSession (uid : String) (selected : List String) (now : Int)
    (st : DBState) : DBState × String :=
  let sid := "s" ++ toString st.sessions.length
  ({ st with sessions := st.sessions ++
      [(sid, ⟨uid, "in_progress", some ⟨selected, .obj [], none⟩, none, now, now⟩)] },
   sid)

/-- `handleSave` of the details screen (`Details.screen.tsx:118-135`):
`update` of `partialBooking.dates.start/end` and `updatedAt`; fails when
the session document is absent (`update` requires an existing doc). -/
def handleSaveDates (sid : String) (pickUp dropOff now : Int)
    (st : DBState) : DBState × Except String Unit :=
  match assocGet st.sessions sid with
  | none => (st, .error "not-found")
  | some sess =>
      let draft := sess.draft.getD ⟨[], .null, none⟩
      ({ st with
          sessions := assocSet st.sessions sid
            ({ sess with draft := some ({ draft with dates := some (pickUp, dropOff) }),
                         updatedAt := now }) },
       .ok ())

/-- `onSave` of the add-ons screen (`AddOns.screen.tsx:160-185`):
`set({partialBooking: {addons: selected}}, {merge: true})` — replaces the
draft's add-on list, keeps its other fields; when the session is absent the
merged `set` creates a document holding only the merged fields (the other
fields are modelled with empty defaults). -/
def onSaveAddons (sid : String) (selected : List String)
    (st : DBState) : DBState :=
  match assocGet st.sessions sid with
  | some sess =>
      let draft := sess.draft.getD ⟨[], .null, none⟩
      { st with
          sessions := assocSet st.sessions sid
            ({ sess with draft := some ({ draft with addons := .arr (selected.map .str) }) }) }
  | none =>
      { st with
          sessions := assocSet st.sessions sid
            ⟨"", "", some ⟨[], .arr (selected.map .str), none⟩, none, 0, 0⟩ }

/-! ### Item detail resolvers (`Details.screen.tsx:77-107`,
`Review.screen.tsx:72-102`) -/

/-- A resolved item view-record of the details screen; `daily_price` stays
raw there, `passengers` falls back through the misspelled field to `N/A`. -/
structure DetailsCart where
  id : String
  brand : String
  model : String
  image_url : String
  daily_price : JSValue
  passengers : String
  battery : String
  quantity : Nat

/-- `d.passangers || d.passengers || 'N/A'` (empty strings are falsy). -/
def passengersOf (d : CartDoc) : String :=
  match d.passangers with
  | some s => if s ≠ "" then s else
      match d.passengers with
      | some t => if t ≠ "" then t else "N/A"
      | none => "N/A"
  | none =>
      match d.passengers with
      | some t => if t ≠ "" then t else "N/A"
      | none => "N/A"

/-- One lookup of the details-screen resolver: a missing id yields `null`
(`console.warn`, not an error). -/
def detailsFetchOne (carts : List (String × CartDoc)) (id : String) :
    Option DetailsCart :=
  (assocGet carts id).map (fun d =>
    ⟨id, d.brand, d.model, d.image_url, d.daily_price, passengersOf d, d.battery, 1⟩)

/-- The details-screen resolver (`Details.screen.tsx:77-107`): fetch every
id, then filter out the `null`s of the missing ones.  It never raises on a
missing id — not even when every id is missing. -/
def detailsResolve (carts : List (String × CartDoc)) (ids : List String) :
    List DetailsCart :=
  (ids.map (detailsFetchOne carts)).filterMap id

/-- A resolved line of the review screen (the locale-formatted `time`
display string is outside the embedding). -/
structure ReviewCart where
  id : String
  brand : String
  model : String
  image_url : String
  daily_price : Rat
  qty : Nat

/-- The review-screen resolver (`Review.screen.tsx:72-102`): every lookup
throws on a missing id, and the surrounding `Promise.all` therefore rejects
as soon as any id is missing (modelled with the first missing id in list
order). -/
def reviewResolve (carts : List (String × CartDoc)) :
    List String → Except String (List ReviewCart)
  | [] => .ok []
  | id :: rest =>
      match assocGet carts id with
      | none => .error ("Cart " ++ id ++ " not found")
      | some d =>
          match reviewResolve carts rest with
          | .error e => .error e
          | .ok tl =>
              .ok (⟨id, d.brand, d.model, d.image_url,
                    normalizePrice d.daily_price, 1⟩ :: tl)

/-! ### Most-recent-payment prefill query (`Payment.screen.tsx:95-128`) -/

/-- A stored `createdAt` value: a Firestore timestamp (has `toMillis`), a
raw date value (string/number, truthy), or absent/falsy. -/
inductive TSVal where
  | ts : Int → TSVal
  | rawDate : Int → TSVal
  | missing : TSVal
deriving DecidableEq, Repr

/-- `createdAt?.toMillis?.() ?? (createdAt ? new Date(createdAt).getTime() : 0)`. -/
def tsKey : TSVal → Int
  | .ts m => m
  | .rawDate m => m
  | .missing => 0

/-- The fields of a saved payment record the prefill path reads. -/
structure PaymentRec where
  customerId : String
  createdAt : TSVal
  last4 : Option String
  brand : Option String
  expiry : Option String
deriving DecidableEq, Repr

/-- Descending order on the `createdAt` sort key (the indexed query's
`orderBy('createdAt','desc')` and the fallback comparator `tb - ta`). -/
def keyGe (a b : String × PaymentRec) : Prop :=
  tsKey b.2.createdAt ≤ tsKey a.2.createdAt

instance : DecidableRel keyGe := fun a b =>
  inferInstanceAs (Decidable (tsKey b.2.createdAt ≤ tsKey a.2.createdAt))

instance : IsTotal (String × PaymentRec) keyGe :=
  ⟨fun a b => le_total (tsKey b.2.createdAt) (tsKey a.2.createdAt)⟩

instance : IsTrans (String × PaymentRec) keyGe :=
  ⟨fun _ _ _ h1 h2 => le_trans h2 h1⟩

/-- Ascending order on document ids: the order in which an unordered
Firestore query returns its documents. -/
def idLe (a b : String × PaymentRec) : Prop := a.1 ≤ b.1

instance : DecidableRel idLe := fun a b => inferInstanceAs (Decidable (a.1 ≤ b.1))

instance : IsTotal (String × PaymentRec) idLe := ⟨fun a b => le_total a.1 b.1⟩

instance : IsTrans (String × PaymentRec) idLe := ⟨fun _ _ _ h1 h2 => le_trans h1 h2⟩

/-- `where('customerId','==',uid)`. -/
def filterByCustomer (db : List (String × PaymentRec)) (uid : String) :
    List (String × PaymentRec) :=
  db.filter (·.2.customerId == uid)

/-- Modelled from §6 of the spec: the document store's indexed query
`query(payments, customerId == uid, orderBy createdAt desc, limit 1)`,
available only when the composite index exists. -/
def indexedMostRecent (db : List (String × PaymentRec)) (uid : String) :
    Option (String × PaymentRec) :=
  (List.insertionSort keyGe (filterByCustomer db uid)).head?

/-- The fallback path (`Payment.screen.tsx:113-123`): an unordered fetch
filtered by customer id (documents arrive in id order), then a stable
client-side sort on `createdAt` descending, taking the first record. -/
def fallbackMostRecent (db : List (String × PaymentRec)) (uid : String) :
    Option (String × PaymentRec) :=
  (List.insertionSort keyGe (List.insertionSort idLe (filterByCustomer db uid))).head?

/-- A raised backend error, identified by its code as in the screen's
`err.code === 'failed-precondition'` test (the message-text fallback test
of the same guard matches the same missing-index errors). -/
structure FsError where
  code : String
deriving DecidableEq, Repr

/-- The ordered query attempt: succeeds when the composite index exists,
otherwise raises the missing-index precondition error. -/
def runIndexedQuery (indexAvailable : Bool) (db : List (String × PaymentRec))
    (uid : String) : Except FsError (Option (String × PaymentRec)) :=
  if indexAvailable then .ok (indexedMostRecent db uid)
  else .error ⟨"failed-precondition"⟩

/-- The prefill load (`Payment.screen.tsx:95-128`): try the indexed query;
on a missing-index precondition error fall back to the unordered fetch and
client-side sort; rethrow anything else. -/
def loadMostRecentPayment (indexAvailable : Bool)
    (db : List (String × PaymentRec)) (uid : String) :
    Except FsError (Option (String × PaymentRec)) :=
  match runIndexedQuery indexAvailable db uid with
  | .ok r => .ok r
  | .error e =>
      if e.code == "failed-precondition" then .ok (fallbackMostRecent db uid)
      else .error e

/-! ### Concrete demonstration fixtures (for witnesses and counterexamples) -/

/-- A catalog item with a currency-formatted string price. -/
def cartItemA : CartDoc := ⟨"Evolution", "EV5", "imgA", .str "$72.00", some "4", none, "48V"⟩

/-- A catalog item with a numeric price. -/
def cartItemC : CartDoc := ⟨"Club Car", "CC2", "imgC", .num 45, some "2", none, "36V"⟩

/-- A two-item catalog (ids `A` and `C`; `B` does not exist). -/
def demoCatalog : List (String × CartDoc) := [("A", cartItemA), ("C", cartItemC)]

/-- An in-progress session holding carts `A` and `C`. -/
def demoSession : Session := ⟨"u1", "in_progress", some ⟨["A", "C"], .obj [], none⟩, none, 1, 1⟩

/-- A store with one session, the two-item catalog, and a stored customer
profile carrying an email and a date of birth. -/
def demoState : DBState :=
  ⟨[("s1", demoSession)], demoCatalog,
   [("u1", [("email", .str "x@y.z"), ("dob", .str "1990-01-01")])], [], []⟩

/-- Valid payment-screen inputs: names filled (first name with padding to be
trimmed), date of birth left blank, both agreements accepted, card data
entered, save-card on. -/
def demoInputs : PaymentInputs :=
  ⟨⟨" Ada ", "Lovelace", "", "12 St", "", "", "", ""⟩, "", "Visa", "04/28",
   "4242424242424242", "Ada", "05/29", "123", true, true, true⟩

/-- The same inputs with the rental agreement left unaccepted. -/
def demoInputsBad : PaymentInputs := { demoInputs with agreeRental := false }

/-- The store after one successful finalization of `demoState`: session
`s1` is already `booked` and one booking exists. -/
def bookedState : DBState :=
  (handleConfirm (some "u1") (some "s1") demoInputs 7 true demoState).1

/-- Four saved payment records of two customers with pairwise-distinct
creation instants, in non-sorted id order. -/
def demoPayments : List (String × PaymentRec) :=
  [("x", ⟨"u1", .ts 10, some "4242", some "Visa", none⟩),
   ("a", ⟨"u1", .ts 30, some "1111", none, none⟩),
   ("m", ⟨"u2", .ts 99, none, none, none⟩),
   ("k", ⟨"u1", .rawDate 20, none, none, none⟩)]

/-! ### Helper lemmas -/

lemma foldl_add_eq (f : Rat × Rat → Rat) (l : List (Rat × Rat)) (a : Rat) :
    l.foldl (fun s p => s + f p) a = a + (l.map f).sum := by
  induction l generalizing a with
  | nil => simp
  | cons x xs ih => simp [ih, add_assoc]

lemma find?_map_overwrite_self {α : Type} (l : List (String × α)) (k : String) (v : α)
    (h : l.any (·.1 == k) = true) :
    (l.map (fun kv => if kv.1 == k then (k, v) else kv)).find? (·.1 == k) = some (k, v) := by
  induction l with
  | nil => simp at h
  | cons kv tl ih =>
      simp only [List.map_cons]
      by_cases hk : kv.1 == k
      · rw [if_pos hk]
        exact List.find?_cons_of_pos (p := fun x : String × α => x.1 == k) _ (by simp)
      · rw [if_neg hk, List.find?_cons_of_neg (p := fun x : String × α => x.1 == k) _ hk]
        simp only [List.any_cons, hk, Bool.false_or] at h
        exact ih h

lemma assocGet_assocSet_self {α : Type} (l : List (String × α)) (k : String) (v : α) :
    assocGet (assocSet l k v) k = some v := by
  unfold assocGet assocSet
  by_cases h : l.any (·.1 == k)
  · rw [if_pos h, find?_map_overwrite_self l k v h]
    rfl
  · rw [if_neg h]
    rw [List.find?_append]
    have hnone : l.find? (·.1 == k) = none := by
      rw [List.find?_eq_none]
      intro x hx hpx
      exact h (List.any_of_mem hx hpx)
    rw [hnone]
    simp [List.find?]

lemma find?_map_overwrite {α : Type} (l : List (String × α)) (k k' : String) (v : α)
    (h : k' ≠ k) :
    (l.map (fun kv => if kv.1 == k then (k, v) else kv)).find? (·.1 == k') =
      l.find? (·.1 == k') := by
  have hkk' : (k == k') = false := by
    simp only [beq_eq_false_iff_ne]
    exact fun hkk => h hkk.symm
  induction l with
  | nil => rfl
  | cons kv tl ih =>
      simp only [List.map_cons]
      by_cases hk : kv.1 == k
      · have hkeq : kv.1 = k := by simpa using hk
        rw [if_pos hk,
            List.find?_cons_of_neg (p := fun x : String × α => x.1 == k') _ (by simpa using hkk'),
            List.find?_cons_of_neg (p := fun x : String × α => x.1 == k') _
              (by simp only [hkeq]; simpa using hkk'), ih]
      · by_cases hx : kv.1 == k'
        · rw [if_neg hk, List.find?_cons_of_pos (p := fun x : String × α => x.1 == k') _ hx,
              List.find?_cons_of_pos (p := fun x : String × α => x.1 == k') _ hx]
        · rw [if_neg hk, List.find?_cons_of_neg (p := fun x : String × α => x.1 == k') _ hx,
              List.find?_cons_of_neg (p := fun x : String × α => x.1 == k') _ hx, ih]

lemma assocGet_assocSet_ne {α : Type} (l : List (String × α)) (k k' : String) (v : α)
    (h : k' ≠ k) :
    assocGet (assocSet l k v) k' = assocGet l k' := by
  have hkk' : (k == k') = false := by
    simp only [beq_eq_false_iff_ne]
    exact fun hkk => h hkk.symm
  unfold assocGet assocSet
  by_cases hny : l.any (·.1 == k)
  · rw [if_pos hny, find?_map_overwrite l k k' v h]
  · rw [if_neg hny, List.find?_append]
    have hone : List.find? (fun p => p.1 == k') [(k, v)] = none := by
      simp [List.find?, hkk']
    simp [hone]

lemma assocGet_append_last {α : Type} (l : List (String × α)) (k : String) (v : α) :
    (assocGet (l ++ [(k, v)]) k).isSome = true := by
  unfold assocGet
  rw [List.find?_append]
  cases hf : l.find? (·.1 == k) with
  | some x => simp [hf]
  | none => simp [hf, List.find?]

lemma normalizePrice_str (s : String) :
    normalizePrice (.str s) =
      (match jsParseFloat (stripPriceChars s) with
       | none => (0 : Rat)
       | some q => q) := rfl

lemma normalizePrice_num (q : Rat) :
    normalizePrice (.num q) =
      (match jsParseFloat (stripPriceChars (jsNumToString q)) with
       | none => (0 : Rat)
       | some q => q) := rfl

lemma normalizePrice_null :
    normalizePrice .null =
      (match jsParseFloat (stripPriceChars "0") with
       | none => (0 : Rat)
       | some q => q) := rfl

lemma find?_filter_of_imp {α : Type} (l : List α) (p q : α → Bool)
    (h : ∀ x, p x = true → q x = true) :
    (l.filter q).find? p = l.find? p := by
  induction l with
  | nil => rfl
  | cons x tl ih =>
      by_cases hp : p x
      · have hq : q x = true := h x hp
        rw [List.filter_cons_of_pos hq, List.find?_cons_of_pos _ hp,
            List.find?_cons_of_pos _ hp]
      · rw [List.find?_cons_of_neg _ hp]
        by_cases hq : q x
        · rw [List.filter_cons_of_pos hq, List.find?_cons_of_neg _ hp, ih]
        · rw [List.filter_cons_of_neg (by simpa using hq), ih]

lemma getField_mergeSet_of_absent (old payload : Doc) (k : String)
    (h : payload.any (·.1 == k) = false) :
    getField (mergeSet old payload) k = getField old k := by
  unfold getField mergeSet assocGet
  rw [List.find?_append]
  have hpay : payload.find? (·.1 == k) = none := by
    rw [List.find?_eq_none]
    rw [List.any_eq_false] at h
    exact h
  have hfil : (old.filter (fun kv => !payload.any (·.1 == kv.1))).find? (·.1 == k) =
      old.find? (·.1 == k) := by
    apply find?_filter_of_imp
    intro x hpx
    have hx1 : x.1 = k := by simpa using hpx
    simp [hx1, h]
  rw [hpay, hfil]
  cases old.find? (·.1 == k) <;> rfl

lemma resolveLines_qty (st : DBState) (ids : List String) :
    ∀ line ∈ resolveLines st ids, line.qty = 1 := by
  intro line hline
  unfold resolveLines at hline
  obtain ⟨cid, _, hsome⟩ := List.mem_filterMap.mp hline
  obtain ⟨d, _, hmk⟩ := Option.map_eq_some'.mp hsome
  rw [← hmk]

lemma resolveLines_base (st : DBState) (ids : List String) :
    ((resolveLines st ids).map (fun c => c.daily_price * (c.qty : Rat))).sum =
      (ids.filterMap (fun cid =>
        (assocGet st.carts cid).map (fun d => normalizePrice d.daily_price))).sum := by
  unfold resolveLines
  induction ids with
  | nil => rfl
  | cons i tl ih =>
      rw [List.filterMap_cons, List.filterMap_cons]
      cases h : assocGet st.carts i with
      | none => simpa [h] using ih
      | some d =>
          simp only [h, Option.map_some']
          rw [List.map_cons, List.sum_cons, List.sum_cons, ih]
          norm_num

lemma jsSetOfList_invariant (l : List String) :
    ∀ acc : List String, acc.Nodup →
      (l.foldl (fun acc x => if x ∈ acc then acc else acc ++ [x]) acc).Nodup ∧
      ∀ x ∈ l.foldl (fun acc x => if x ∈ acc then acc else acc ++ [x]) acc,
        x ∈ acc ∨ x ∈ l := by
  induction l with
  | nil => exact fun acc h => ⟨h, fun x hx => .inl hx⟩
  | cons y tl ih =>
      intro acc hacc
      simp only [List.foldl_cons]
      by_cases hy : y ∈ acc
      · rw [if_pos hy]
        obtain ⟨h1, h2⟩ := ih acc hacc
        exact ⟨h1, fun x hx => (h2 x hx).imp id (List.mem_cons_of_mem y)⟩
      · rw [if_neg hy]
        have hacc' : (acc ++ [y]).Nodup := by
          rw [List.nodup_append]
          exact ⟨hacc, List.nodup_singleton y, by simpa using hy⟩
        obtain ⟨h1, h2⟩ := ih (acc ++ [y]) hacc'
        refine ⟨h1, fun x hx => ?_⟩
        rcases h2 x hx with hmem | hmem
        · rcases List.mem_append.mp hmem with hmem' | hmem'
          · exact .inl hmem'
          · exact .inr (by simpa using .inl (by simpa using hmem'))
        · exact .inr (List.mem_cons_of_mem y hmem)

lemma jsSetOfList_nodup (l : List String) : (jsSetOfList l).Nodup :=
  (jsSetOfList_invariant l [] List.nodup_nil).1

lemma jsSetOfList_subset (l : List String) : ∀ x ∈ jsSetOfList l, x ∈ l := by
  intro x hx
  rcases (jsSetOfList_invariant l [] List.nodup_nil).2 x hx with h | h
  · cases h
  · exact h

lemma mem_parseAddonsField (raw : JSValue) :
    ∀ x ∈ parseAddonsField raw, x ≠ "" ∧ ∃ y : String, x = jsTrim y := by
  intro x hx
  unfold parseAddonsField at hx
  by_cases hf : jsFalsy raw
  · simp [hf] at hx
  · rw [if_neg hf] at hx
    cases raw with
    | arr xs =>
        obtain ⟨hmem, hne⟩ := List.mem_filter.mp hx
        obtain ⟨y, _, hy⟩ := List.mem_map.mp hmem
        exact ⟨by simpa using hne, y, hy.symm⟩
    | obj kvs =>
        obtain ⟨hmem, hne⟩ := List.mem_filter.mp hx
        obtain ⟨y, _, hy⟩ := List.mem_map.mp hmem
        exact ⟨by simpa using hne, y, hy.symm⟩
    | str s0 =>
        simp only at hx
        cases hj : jsonParseArrayStrings (jsTrim s0) with
        | some p =>
            rw [hj] at hx
            obtain ⟨hmem, hne⟩ := List.mem_filter.mp hx
            obtain ⟨y, _, hy⟩ := List.mem_map.mp hmem
            exact ⟨by simpa using hne, y, hy.symm⟩
        | none =>
            rw [hj] at hx
            by_cases hstr : jsTrim (stripOuterBrackets (jsTrim s0)) = ""
            · simp [hstr] at hx
            · rw [if_neg hstr] at hx
              obtain ⟨hmem, hne⟩ := List.mem_filter.mp hx
              obtain ⟨y, _, hy⟩ := List.mem_map.mp hmem
              exact ⟨by simpa using hne, stripQuotesOnce y, hy.symm⟩
    | null => simp [jsFalsy] at hf
    | bool b => cases hx
    | num q => cases hx

/-- The finalization preconditions named by the spec (§4.4): authenticated
caller, a supplied and existing session, a non-empty selected cart list,
both agreement flags, and non-blank trimmed names. -/
def finalizePreconds (uid? sid? : Option String) (inp : PaymentInputs)
    (st : DBState) : Prop :=
  uid?.isSome = true ∧
  (∃ sid, sid? = some sid ∧
    ∃ sess, assocGet st.sessions sid = some sess ∧
      ∃ d, sess.draft = some d ∧ d.carts ≠ []) ∧
  inp.agreeRental = true ∧ inp.agreeRules = true ∧
  jsTrim inp.personal.firstName ≠ "" ∧ jsTrim inp.personal.lastName ≠ ""

lemma handleConfirm_spec (uid? sid? : Option String) (inp : PaymentInputs)
    (now : Int) (commitOk : Bool) (st : DBState) :
    (¬ (finalizePreconds uid? sid? inp st ∧ commitOk = true) ∧
       ∃ e, handleConfirm uid? sid? inp now commitOk st = (st, .error e)) ∨
    (∃ uid sid sess d,
       uid? = some uid ∧ sid? = some sid ∧
       assocGet st.sessions sid = some sess ∧ sess.draft = some d ∧ d.carts ≠ [] ∧
       finalizePreconds uid? sid? inp st ∧ commitOk = true ∧
       handleConfirm uid? sid? inp now commitOk st =
         (successState uid sid inp now st sess d,
          .ok ("b" ++ toString st.bookings.length))) := by
  unfold handleConfirm
  cases uid? with
  | none => exact .inl ⟨fun hpre => by simp [finalizePreconds] at hpre, _, rfl⟩
  | some uid =>
    cases sid? with
    | none =>
        refine .inl ⟨fun hpre => ?_, _, rfl⟩
        obtain ⟨_, ⟨sid, hsid, _⟩, _⟩ := hpre.1
        cases hsid
    | some sid =>
      dsimp only
      by_cases h1 : jsTrim inp.personal.firstName = "" ∨ jsTrim inp.personal.lastName = ""
      · rw [if_pos h1]
        refine .inl ⟨fun hpre => ?_, _, rfl⟩
        obtain ⟨_, _, _, _, hfn, hln⟩ := hpre.1
        rcases h1 with h1 | h1
        · exact hfn h1
        · exact hln h1
      · rw [if_neg h1]
        by_cases h2 : ¬ (inp.agreeRental ∧ inp.agreeRules)
        · rw [if_pos h2]
          refine .inl ⟨fun hpre => ?_, _, rfl⟩
          obtain ⟨_, _, hr, hu, _, _⟩ := hpre.1
          exact h2 ⟨by simp [hr], by simp [hu]⟩
        · rw [if_neg h2]
          cases hs : assocGet st.sessions sid with
          | none =>
              dsimp only
              refine .inl ⟨fun hpre => ?_, _, rfl⟩
              obtain ⟨_, ⟨sid', hsid, sess, hsess, _⟩, _⟩ := hpre.1
              rw [Option.some_inj.mp hsid] at hs
              rw [hs] at hsess
              cases hsess
          | some sess =>
            dsimp only
            cases hd : sess.draft with
            | none =>
                dsimp only
                refine .inl ⟨fun hpre => ?_, _, rfl⟩
                obtain ⟨_, ⟨sid', hsid, sess', hsess, d, hdft, _⟩, _⟩ := hpre.1
                rw [Option.some_inj.mp hsid] at hs
                rw [hs] at hsess
                rw [← Option.some_inj.mp hsess] at hdft
                rw [hd] at hdft
                cases hdft
            | some draft =>
              dsimp only
              by_cases hc : draft.carts = []
              · rw [if_pos hc]
                refine .inl ⟨fun hpre => ?_, _, rfl⟩
                obtain ⟨_, ⟨sid', hsid, sess', hsess, d, hdft, hne⟩, _⟩ := hpre.1
                rw [Option.some_inj.mp hsid] at hs
                rw [hs] at hsess
                rw [← Option.some_inj.mp hsess] at hdft
                rw [hd] at hdft
                rw [← Option.some_inj.mp hdft] at hne
                exact hne hc
              · rw [if_neg hc]
                by_cases hk : ¬ commitOk
                · rw [if_pos hk]
                  exact .inl ⟨fun hpre => hk (by simp [hpre.2]), _, rfl⟩
                · rw [if_neg hk]
                  push_neg at h1 h2
                  refine .inr ⟨uid, sid, sess, draft, rfl, rfl, hs, hd, hc, ?_, ?_, rfl⟩
                  · exact ⟨rfl, ⟨sid, rfl, sess, hs, draft, hd, hc⟩,
                      by simp [h2.1], by simp [h2.2], h1.1, h1.2⟩
                  · simpa using not_not.mp hk

/-- Two list elements with the same key are equal when the keys are
pairwise distinct along the list. -/
lemma pairwise_key_inj {α β : Type} (f : α → β) :
    ∀ l : List α, l.Pairwise (fun x y => f x ≠ f y) →
      ∀ a ∈ l, ∀ b ∈ l, f a = f b → a = b := by
  intro l hl
  induction l with
  | nil => intro a ha; cases ha
  | cons x tl ih =>
      rw [List.pairwise_cons] at hl
      intro a ha b hb hfab
      rcases List.mem_cons.mp ha with rfl | ha'
      · rcases List.mem_cons.mp hb with rfl | hb'
        · rfl
        · exact absurd hfab (hl.1 b hb')
      · rcases List.mem_cons.mp hb with rfl | hb'
        · exact absurd hfab.symm (hl.1 a ha')
        · exact ih hl.2 a ha' b hb' hfab

/-- The head of the `keyGe`-sorted list is a maximal-key member. -/
lemma head_sort_keyGe_max (l : List (String × PaymentRec))
    (a : String × PaymentRec)
    (ha : (List.insertionSort keyGe l).head? = some a) :
    a ∈ l ∧ ∀ b ∈ l, tsKey b.2.createdAt ≤ tsKey a.2.createdAt := by
  have hperm := List.perm_insertionSort keyGe l
  have hsorted := List.sorted_insertionSort keyGe l
  cases hsort : List.insertionSort keyGe l with
  | nil => rw [hsort] at ha; cases ha
  | cons x t =>
      rw [hsort] at ha hperm hsorted
      rw [List.head?_cons] at ha
      obtain rfl : x = a := Option.some_inj.mp ha
      constructor
      · exact hperm.mem_iff.mp (List.mem_cons_self _ _)
      · intro b hb
        rcases List.mem_cons.mp (hperm.mem_iff.mpr hb) with rfl | hbt
        · exact le_refl _
        · exact List.rel_of_sorted_cons hsorted b hbt

lemma head_sort_keyGe_none (l : List (String × PaymentRec))
    (ha : (List.insertionSort keyGe l).head? = none) : l = [] := by
  cases hsort : List.insertionSort keyGe l with
  | nil =>
      have := (List.perm_insertionSort keyGe l).symm
      rw [hsort] at this
      exact this.symm.nil_eq.symm
  | cons x t => rw [hsort] at ha; cases ha

lemma getField_mergeSet_of_present (old payload : Doc) (k : String)
    (h : payload.any (·.1 == k) = true) :
    getField (mergeSet old payload) k = getField payload k := by
  unfold getField mergeSet assocGet
  rw [List.find?_append]
  have hfil : (old.filter (fun kv => !payload.any (·.1 == kv.1))).find? (·.1 == k) =
      none := by
    rw [List.find?_eq_none]
    intro x hxmem hpx
    have hx1 : x.1 = k := by simpa using hpx
    have hkeep := (List.mem_filter.mp hxmem).2
    rw [hx1] at hkeep
    simp [h] at hkeep
  rw [hfil]
  simp

lemma assocGet_append_of_some {α : Type} (l : List (String × α)) (x : String × α)
    (k : String) (v : α) (h : assocGet l k = some v) :
    assocGet (l ++ [x]) k = some v := by
  unfold assocGet at h ⊢
  rw [List.find?_append]
  cases hf : l.find? (·.1 == k) with
  | none => rw [hf] at h; cases h
  | some y =>
      rw [hf] at h
      simpa using h

lemma jsSliceLast4_length (s : String) : (jsSliceLast4 s).length ≤ 4 := by
  unfold jsSliceLast4
  show (s.data.drop (s.data.length - 4)).length ≤ 4
  rw [List.length_drop]
  omega

/-! ### Claim theorems -/

/-- C2: for every input list of (unit price, quantity) pairs the pricing
calculator returns `base = Σ price·qty`, `tax = round(base·0.10, 2)`,
`deposit = 50.00` and `total = round(base + tax + deposit, 2)`; for
`[(72.00,1),(45.00,1)]` it returns base 117.00, tax 11.70, deposit 50.00,
total 178.70; and any reordering of the input yields identical totals. -/
theorem pricing_calculator_correct (l l' : List (Rat × Rat)) (h : l.Perm l') :
    calcTotals l = calcTotals l' ∧
    (calcTotals l).base = (l.map (fun p => p.1 * p.2)).sum ∧
    (calcTotals l).tax = round2 ((calcTotals l).base * (1 / 10)) ∧
    (calcTotals l).deposit = 50 ∧
    (calcTotals l).total =
      round2 ((calcTotals l).base + (calcTotals l).tax + (calcTotals l).deposit) ∧
    calcTotals [(72, 1), (45, 1)] = ⟨117, 117 / 10, 50, 1787 / 10⟩ := by
  have hbase : ∀ m : List (Rat × Rat),
      (calcTotals m).base = (m.map (fun p => p.1 * p.2)).sum := by
    intro m
    show m.foldl (fun s p => s + p.1 * p.2) 0 = _
    rw [foldl_add_eq (fun p => p.1 * p.2) m 0, zero_add]
  have hperm : calcTotals l = calcTotals l' := by
    unfold calcTotals
    have hsum : l.foldl (fun s p => s + p.1 * p.2) 0 =
        l'.foldl (fun s p => s + p.1 * p.2) 0 := by
      rw [foldl_add_eq, foldl_add_eq]
      exact congrArg (0 + ·) (h.map _).sum_eq
    rw [hsum]
  refine ⟨hperm, hbase l, rfl, rfl, rfl, ?_⟩
  unfold calcTotals round2
  norm_num [List.foldl_cons, List.foldl_nil, round_eq]

/-- Witness for C2 at the spec's concrete example and its reversal. -/
theorem pricing_calculator_correct_witness :
    calcTotals [(72, 1), (45, 1)] = calcTotals [(45, 1), (72, 1)] :=
  (pricing_calculator_correct [(72, 1), (45, 1)] [(45, 1), (72, 1)]
     (List.Perm.swap (45, 1) (72, 1) [])).1

/-- C5: normalizing a stored daily price strips everything but digits, `.`
and `-` and parses the rest as a decimal: `"$1,234.50"` gives 1234.50,
`"72"` gives 72, the number `72` gives 72, `null` gives 0, and a
non-parseable value such as `"abc"` gives 0. -/
theorem price_normalization_cases :
    normalizePrice (.str "$1,234.50") = 1234.5 ∧
    normalizePrice (.str "72") = 72 ∧
    normalizePrice (.num 72) = 72 ∧
    normalizePrice .null = 0 ∧
    normalizePrice (.str "abc") = 0 := by
  have e1 : jsParseFloatParts (stripPriceChars "$1,234.50") = some (false, 1234, 50, 2) := by
    decide
  have e2 : jsParseFloatParts (stripPriceChars "72") = some (false, 72, 0, 0) := by decide
  have e3 : jsParseFloatParts (stripPriceChars (jsNumToString 72)) = some (false, 72, 0, 0) := by
    decide
  have e4 : jsParseFloatParts (stripPriceChars "0") = some (false, 0, 0, 0) := by decide
  have e5 : jsParseFloatParts (stripPriceChars "abc") = none := by decide
  refine ⟨?_, ?_, ?_, ?_, ?_⟩
  · rw [normalizePrice_str]
    simp only [jsParseFloat, e1, Option.map_some']
    norm_num [partsToRat]
  · rw [normalizePrice_str]
    simp only [jsParseFloat, e2, Option.map_some']
    norm_num [partsToRat]
  · rw [normalizePrice_num]
    simp only [jsParseFloat, e3, Option.map_some']
    norm_num [partsToRat]
  · rw [normalizePrice_null]
    simp only [jsParseFloat, e4, Option.map_some']
    norm_num [partsToRat]
  · rw [normalizePrice_str]
    simp only [jsParseFloat, e5, Option.map_none']

/-- C6: the add-on field normalizer maps all four stored encodings of
`["Cooler","Rain Cover"]` — native array, object values, JSON-encoded
array string, bracketed comma-separated string — to the identical
deduplicated list, and in general yields trimmed, non-empty labels with
duplicates removed. -/
theorem addon_normalization (raw : JSValue) :
    normalizeAddons (.arr [.str "Cooler", .str "Rain Cover"]) = ["Cooler", "Rain Cover"] ∧
    normalizeAddons (.obj [("a", .str "Cooler"), ("b", .str "Rain Cover")]) =
      ["Cooler", "Rain Cover"] ∧
    normalizeAddons (.str "[\"Cooler\",\"Rain Cover\"]") = ["Cooler", "Rain Cover"] ∧
    normalizeAddons (.str "[Cooler, Rain Cover]") = ["Cooler", "Rain Cover"] ∧
    (normalizeAddons raw).Nodup ∧
    ∀ x ∈ normalizeAddons raw, x ≠ "" ∧ ∃ y : String, x = jsTrim y := by
  refine ⟨by decide, by decide, by decide, by decide, jsSetOfList_nodup _, ?_⟩
  intro x hx
  exact mem_parseAddonsField raw x (jsSetOfList_subset _ x hx)

/-- Witness for C6: instantiates the general part at the native-array
encoding and its first label. -/
theorem addon_normalization_witness :
    "Cooler" ≠ "" ∧ ∃ y : String, "Cooler" = jsTrim y :=
  (addon_normalization (.arr [.str "Cooler", .str "Rain Cover"])).2.2.2.2.2 "Cooler"
    (by decide)

/-- C4 counterexample: with ids `[A,B,C]` where only `B` is missing, the
review-screen resolver raises (`Cart B not found`) instead of returning
`[A,C]`; and with `[B]` alone (every id missing) the details-screen
resolver returns the empty list and raises nothing, instead of raising a
NotFound error.  No resolver in the code both tolerates a partially
missing batch and raises on a fully missing one, and the error message
`"no items found for this session"` appears nowhere. -/
theorem resolver_claim_cex :
    detailsResolve demoCatalog ["B"] = [] ∧
    reviewResolve demoCatalog ["A", "B", "C"] = .error "Cart B not found" :=
  ⟨rfl, rfl⟩

/-- C4 amended: the details-screen resolver returns the records of exactly
the existing ids in input order and never raises, even when every id is
missing; the review-screen resolver returns the full ordered list when all
ids resolve and raises `Cart <id> not found` as soon as any id is missing. -/
theorem resolver_amended (carts : List (String × CartDoc)) (ids : List String) :
    (detailsResolve carts ids).map (fun c => c.id) =
      ids.filter (fun i => (assocGet carts i).isSome) ∧
    ((∀ i ∈ ids, (assocGet carts i).isSome = true) →
      ∃ rs, reviewResolve carts ids = .ok rs ∧ rs.map (fun c => c.id) = ids) ∧
    (∀ i ∈ ids, assocGet carts i = none →
      ∃ j, j ∈ ids ∧ assocGet carts j = none ∧
        reviewResolve carts ids = .error ("Cart " ++ j ++ " not found")) := by
  refine ⟨?_, ?_, ?_⟩
  · induction ids with
    | nil => rfl
    | cons i tl ih =>
        unfold detailsResolve detailsFetchOne at ih ⊢
        cases h : assocGet carts i with
        | none => simpa [h, List.filterMap_map] using ih
        | some d => simpa [h, List.filterMap_map] using ih
  · induction ids with
    | nil => exact fun _ => ⟨[], rfl, rfl⟩
    | cons i tl ih =>
        intro hall
        obtain ⟨d, hd⟩ := Option.isSome_iff_exists.mp (hall i (List.mem_cons_self i tl))
        obtain ⟨rs, hrs, hmap⟩ := ih (fun j hj => hall j (List.mem_cons_of_mem i hj))
        refine ⟨⟨i, d.brand, d.model, d.image_url, normalizePrice d.daily_price, 1⟩ :: rs,
          ?_, ?_⟩
        · unfold reviewResolve
          rw [hd, hrs]
        · simp [hmap]
  · have h3 : ∀ ids2 : List String, (∃ i ∈ ids2, assocGet carts i = none) →
        ∃ j, j ∈ ids2 ∧ assocGet carts j = none ∧
          reviewResolve carts ids2 = .error ("Cart " ++ j ++ " not found") := by
      intro ids2
      induction ids2 with
      | nil =>
          rintro ⟨i, hi, _⟩
          cases hi
      | cons i tl ih =>
          rintro ⟨i0, hi0, hnone⟩
          cases h : assocGet carts i with
          | none =>
              refine ⟨i, List.mem_cons_self i tl, h, ?_⟩
              unfold reviewResolve
              rw [h]
          | some d =>
              have hi0tl : i0 ∈ tl := by
                rcases List.mem_cons.mp hi0 with rfl | htl
                · rw [h] at hnone
                  cases hnone
                · exact htl
              obtain ⟨j, hj, hjn, herr⟩ := ih ⟨i0, hi0tl, hnone⟩
              refine ⟨j, List.mem_cons_of_mem i hj, hjn, ?_⟩
              unfold reviewResolve
              rw [h, herr]
    intro i hi hnone
    exact h3 ids ⟨i, hi, hnone⟩

/-- Witness for C4 amended: order-preserving skip of the missing id `B` on
the concrete catalog, and the all-resolved review path. -/
theorem resolver_amended_witness :
    (detailsResolve demoCatalog ["A", "B", "C"]).map (fun c => c.id) =
      ["A", "B", "C"].filter (fun i => (assocGet demoCatalog i).isSome) :=
  (resolver_amended demoCatalog ["A", "B", "C"]).1

/-- C1: booking finalization fails unless every precondition holds
(authenticated caller, supplied and existing session, non-empty cart list,
both agreements, non-blank trimmed names); on any failure — precondition or
rejected commit — no write is visible (the state is unchanged); on success
the booking, the `booked` session update with the booking reference, the
merged customer upsert, and the optional payment record all appear
together, committed as one batch. -/
theorem finalization_atomic (uid? sid? : Option String) (inp : PaymentInputs)
    (now : Int) (commitOk : Bool) (st : DBState) :
    (¬ finalizePreconds uid? sid? inp st →
      ∃ e, handleConfirm uid? sid? inp now commitOk st = (st, .error e)) ∧
    ((handleConfirm uid? sid? inp now commitOk st).2.isOk = false →
      (handleConfirm uid? sid? inp now commitOk st).1 = st) ∧
    (∀ bid, (handleConfirm uid? sid? inp now commitOk st).2 = .ok bid →
      ∃ uid sid, uid? = some uid ∧ sid? = some sid ∧
        (∃ b, (handleConfirm uid? sid? inp now commitOk st).1.bookings.getLast? =
            some (bid, b) ∧ b.customerId = uid ∧ b.sessionId = sid ∧
            b.status = "confirmed") ∧
        (∃ sess', assocGet (handleConfirm uid? sid? inp now commitOk st).1.sessions sid =
            some sess' ∧ sess'.status = "booked" ∧ sess'.bookingRef = some bid) ∧
        assocGet (handleConfirm uid? sid? inp now commitOk st).1.customers uid =
          some (mergeSet ((assocGet st.customers uid).getD [])
            (customerPayload inp.personal now)) ∧
        (handleConfirm uid? sid? inp now commitOk st).1.payments.length =
          (if inp.saveCard then st.payments.length + 1 else st.payments.length)) := by
  obtain hcase := handleConfirm_spec uid? sid? inp now commitOk st
  refine ⟨?_, ?_, ?_⟩
  · intro hnp
    rcases hcase with ⟨_, e, heq⟩ | ⟨uid, sid, sess, d, _, _, _, _, _, hpre, _, _⟩
    · exact ⟨e, heq⟩
    · exact absurd hpre hnp
  · intro hnotok
    rcases hcase with ⟨_, e, heq⟩ | ⟨uid, sid, sess, d, _, _, _, _, _, _, _, heq⟩
    · rw [heq]
    · rw [heq] at hnotok
      simp [Except.isOk, Except.toBool] at hnotok
  · intro bid hok
    rcases hcase with ⟨_, e, heq⟩ | ⟨uid, sid, sess, d, hu, hsid, hsess, hd, hc, hpre, hck, heq⟩
    · rw [heq] at hok
      cases hok
    · rw [heq] at hok
      obtain rfl : ("b" ++ toString st.bookings.length) = bid := by
        simpa using hok
      rw [heq]
      unfold successState
      dsimp only
      refine ⟨uid, sid, hu, hsid, ?_, ?_, ?_, ?_⟩
      · exact ⟨bookingOf uid sid now st d, List.getLast?_concat _, rfl, rfl, rfl⟩
      · exact ⟨_, assocGet_assocSet_self _ _ _, rfl, rfl⟩
      · exact assocGet_assocSet_self _ _ _
      · cases hs : inp.saveCard <;> simp [hs]

/-- Witness for C1: an unaccepted agreement leaves the demo store
unchanged. -/
theorem finalization_atomic_witness :
    (handleConfirm (some "u1") (some "s1") demoInputsBad 7 true demoState).1 = demoState :=
  (finalization_atomic (some "u1") (some "s1") demoInputsBad 7 true demoState).2.1 (by decide)

/-- C3 counterexample: on the store obtained after one successful
finalization, session `s1` already has status `booked`, yet invoking
finalization again succeeds (it does not fail) and creates a second
booking. -/
theorem session_monotonic_cex :
    (assocGet bookedState.sessions "s1").map (fun s => s.status) = some "booked" ∧
    (handleConfirm (some "u1") (some "s1") demoInputs 8 true bookedState).2.isOk = true ∧
    (handleConfirm (some "u1") (some "s1") demoInputs 8 true bookedState).1.bookings.length =
      bookedState.bookings.length + 1 :=
  ⟨by decide, by decide, by decide⟩

/-- C3 amended: no operation ever sets an existing session's status back to
`in_progress` — finalization either leaves a session untouched or sets it
to `booked`, and the date update, the add-on update and session creation
preserve every existing session's status.  However, finalization never
inspects the current status: invoked on an already-booked session whose
other preconditions hold it succeeds and appends a second booking rather
than failing. -/
theorem session_monotonic_amended (uid? sid? : Option String) (inp : PaymentInputs)
    (now : Int) (commitOk : Bool) (st : DBState) (k : String) (s s' : Session) :
    (assocGet st.sessions k = some s →
      assocGet (handleConfirm uid? sid? inp now commitOk st).1.sessions k = some s' →
      s' = s ∨ s'.status = "booked") ∧
    (∀ sid pickUp dropOff now2, assocGet st.sessions k = some s →
      assocGet (handleSaveDates sid pickUp dropOff now2 st).1.sessions k = some s' →
      s'.status = s.status) ∧
    (∀ sid sel, assocGet st.sessions k = some s →
      assocGet (onSaveAddons sid sel st).sessions k = some s' →
      s'.status = s.status) ∧
    (∀ uid sel now2, assocGet st.sessions k = some s →
      assocGet (createSession uid sel now2 st).1.sessions k = some s' → s' = s) ∧
    (finalizePreconds uid? sid? inp st → commitOk = true →
      (handleConfirm uid? sid? inp now commitOk st).2.isOk = true ∧
      (handleConfirm uid? sid? inp now commitOk st).1.bookings.length =
        st.bookings.length + 1) := by
  refine ⟨?_, ?_, ?_, ?_, ?_⟩
  · intro hs hs'
    rcases handleConfirm_spec uid? sid? inp now commitOk st with
      ⟨_, e, heq⟩ | ⟨uid, sid, sess, d, _, _, _, _, _, _, _, heq⟩
    · rw [heq] at hs'
      left
      rw [hs'] at hs
      exact Option.some_inj.mp hs
    · rw [heq] at hs'
      unfold successState at hs'
      dsimp only at hs'
      by_cases hk : k = sid
      · right
        rw [hk, assocGet_assocSet_self] at hs'
        rw [← Option.some_inj.mp hs']
      · left
        rw [assocGet_assocSet_ne _ _ _ _ hk] at hs'
        rw [hs'] at hs
        exact Option.some_inj.mp hs
  · intro sid pickUp dropOff now2 hs hs'
    unfold handleSaveDates at hs'
    cases hsid : assocGet st.sessions sid with
    | none =>
        rw [hsid] at hs'
        dsimp only at hs'
        rw [hs'] at hs
        rw [Option.some_inj.mp hs]
    | some sess2 =>
        rw [hsid] at hs'
        dsimp only at hs'
        by_cases hk : k = sid
        · rw [hk, assocGet_assocSet_self] at hs'
          rw [hk, hsid] at hs
          rw [← Option.some_inj.mp hs', Option.some_inj.mp hs]
        · rw [assocGet_assocSet_ne _ _ _ _ hk] at hs'
          rw [hs'] at hs
          rw [Option.some_inj.mp hs]
  · intro sid sel hs hs'
    unfold onSaveAddons at hs'
    cases hsid : assocGet st.sessions sid with
    | none =>
        rw [hsid] at hs'
        dsimp only at hs'
        by_cases hk : k = sid
        · rw [hk] at hs
          rw [hs] at hsid
          cases hsid
        · rw [assocGet_assocSet_ne _ _ _ _ hk] at hs'
          rw [hs'] at hs
          rw [Option.some_inj.mp hs]
    | some sess2 =>
        rw [hsid] at hs'
        dsimp only at hs'
        by_cases hk : k = sid
        · rw [hk, assocGet_assocSet_self] at hs'
          rw [hk, hsid] at hs
          rw [← Option.some_inj.mp hs', Option.some_inj.mp hs]
        · rw [assocGet_assocSet_ne _ _ _ _ hk] at hs'
          rw [hs'] at hs
          rw [Option.some_inj.mp hs]
  · intro uid sel now2 hs hs'
    unfold createSession at hs'
    dsimp only at hs'
    rw [assocGet_append_of_some _ _ _ _ hs] at hs'
    exact (Option.some_inj.mp hs').symm
  · intro hpre hck
    rcases handleConfirm_spec uid? sid? inp now commitOk st with
      ⟨hno, _, _⟩ | ⟨uid, sid, sess, d, _, _, _, _, _, _, _, heq⟩
    · exact absurd ⟨hpre, hck⟩ hno
    · rw [heq]
      unfold successState
      dsimp only
      exact ⟨rfl, by simp⟩

/-- Witness for C3 amended: the double-finalization conjunct applied to the
already-booked demo store. -/
theorem session_monotonic_amended_witness :
    (handleConfirm (some "u1") (some "s1") demoInputs 8 true bookedState).2.isOk = true ∧
    (handleConfirm (some "u1") (some "s1") demoInputs 8 true bookedState).1.bookings.length =
      bookedState.bookings.length + 1 :=
  (session_monotonic_amended (some "u1") (some "s1") demoInputs 8 true bookedState "s1"
      demoSession demoSession).2.2.2.2
    ⟨rfl, ⟨"s1", rfl, _, rfl, _, rfl, by decide⟩, rfl, rfl, by decide, by decide⟩ rfl

/-- C7 counterexample: the stored profile of `u1` has dob `1990-01-01`; the
submitted form's dob field is blank; finalization's merge upsert writes
`dob: null`, erasing the previously stored value — so a blank optional
field is not left untouched. -/
theorem profile_merge_cex :
    getField ((assocGet demoState.customers "u1").getD []) "dob" =
      some (.str "1990-01-01") ∧
    getField ((assocGet bookedState.customers "u1").getD []) "dob" = some .nullV :=
  ⟨by decide, by decide⟩

/-- C7 amended: the finalization-time profile upsert uses merge semantics
for fields outside its payload — any field not among the nine payload keys
(the six optional address/dob fields, the two names, and `updatedAt`) keeps
its stored value — but every payload field is written unconditionally, and
an optional field left blank is stored as `null`, overwriting any
previously stored value. -/
theorem profile_merge_amended (uid? sid? : Option String) (inp : PaymentInputs)
    (now : Int) (commitOk : Bool) (st : DBState) (k : String) (bid : String) :
    (handleConfirm uid? sid? inp now commitOk st).2 = .ok bid →
    ∀ uid, uid? = some uid →
      (k ∉ ["firstName", "lastName", "dob", "address", "city", "state", "country",
            "zipcode", "updatedAt"] →
        getField ((assocGet (handleConfirm uid? sid? inp now commitOk st).1.customers
            uid).getD []) k =
          getField ((assocGet st.customers uid).getD []) k) ∧
      (inp.personal.dob = "" →
        getField ((assocGet (handleConfirm uid? sid? inp now commitOk st).1.customers
            uid).getD []) "dob" = some .nullV) := by
  intro hok uid huid
  rcases handleConfirm_spec uid? sid? inp now commitOk st with
    ⟨_, e, heq⟩ | ⟨uid0, sid, sess, d, hu, _, _, _, _, _, _, heq⟩
  · rw [heq] at hok
    cases hok
  · obtain rfl : uid = uid0 := by
      rw [huid] at hu
      exact Option.some_inj.mp hu
    rw [heq]
    unfold successState
    dsimp only
    rw [assocGet_assocSet_self]
    dsimp only [Option.getD]
    constructor
    · intro hk
      apply getField_mergeSet_of_absent
      simp only [List.mem_cons, not_or] at hk
      obtain ⟨h1, h2, h3, h4, h5, h6, h7, h8, h9, -⟩ := hk
      simp only [customerPayload, List.any_cons, List.any_nil, Bool.or_false,
        Bool.or_eq_false_iff, beq_eq_false_iff_ne]
      exact ⟨fun h => h1 h.symm, fun h => h2 h.symm, fun h => h3 h.symm,
        fun h => h4 h.symm, fun h => h5 h.symm, fun h => h6 h.symm,
        fun h => h7 h.symm, fun h => h8 h.symm, fun h => h9 h.symm⟩
    · intro hdob
      rw [getField_mergeSet_of_present]
      · simp [customerPayload, getField, assocGet, List.find?, strOrNull, hdob]
      · simp [customerPayload]

/-- Witness for C7 amended: on the demo run, the stored email survives the
upsert unchanged while the blank dob is stored as null. -/
theorem profile_merge_amended_witness :
    getField ((assocGet bookedState.customers "u1").getD []) "email" =
      getField ((assocGet demoState.customers "u1").getD []) "email" ∧
    getField ((assocGet bookedState.customers "u1").getD []) "dob" = some .nullV := by
  obtain ⟨h1, h2⟩ := profile_merge_amended (some "u1") (some "s1") demoInputs 7 true
    demoState "email" "b0" rfl "u1" rfl
  exact ⟨h1 (by decide), h2 rfl⟩

/-- C8: the persisted outcome of finalization is independent of the CVV
input (two runs differing only in the CVV are identical), the payment
record holds exactly the thirteen non-sensitive fields (no full card
number and no CVV field), its `last4` value has at most four characters,
and with save-card off no payment record is written at all. -/
theorem payment_pci_safe (uid? sid? : Option String) (inp : PaymentInputs)
    (now : Int) (commitOk : Bool) (st : DBState) (cvv1 cvv2 : String) :
    handleConfirm uid? sid? { inp with cvvInput := cvv1 } now commitOk st =
      handleConfirm uid? sid? { inp with cvvInput := cvv2 } now commitOk st ∧
    (∀ uid sid bid total,
      (paymentDocOf uid sid bid total inp now).map (fun kv => kv.1) =
        ["customerId", "sessionId", "bookingId", "amount", "currency", "method",
         "status", "stripeCustomerId", "paymentIntentId", "last4", "brand",
         "expiry", "createdAt"]) ∧
    (∀ uid sid bid total v,
      getField (paymentDocOf uid sid bid total inp now) "last4" = some (.str v) →
      v.length ≤ 4) ∧
    (inp.saveCard = false →
      (handleConfirm uid? sid? inp now commitOk st).1.payments = st.payments) := by
  refine ⟨rfl, fun uid sid bid total => rfl, ?_, ?_⟩
  · intro uid sid bid total v hv
    have hlit : getField (paymentDocOf uid sid bid total inp now) "last4" =
        some (last4Field inp.cardMasked inp.cardNumberInput) := rfl
    rw [hlit] at hv
    have hv2 : last4Field inp.cardMasked inp.cardNumberInput = .str v :=
      Option.some_inj.mp hv
    unfold last4Field at hv2
    by_cases h1 : inp.cardMasked ≠ ""
    · rw [if_pos h1] at hv2
      obtain rfl : jsSliceLast4 inp.cardMasked = v := by injection hv2
      exact jsSliceLast4_length _
    · rw [if_neg h1] at hv2
      by_cases h2 : inp.cardNumberInput ≠ ""
      · rw [if_pos h2] at hv2
        obtain rfl : jsSliceLast4 inp.cardNumberInput = v := by injection hv2
        exact jsSliceLast4_length _
      · rw [if_neg h2] at hv2
        cases hv2
  · intro hsave
    rcases handleConfirm_spec uid? sid? inp now commitOk st with
      ⟨_, e, heq⟩ | ⟨uid, sid, sess, d, _, _, _, _, _, _, _, heq⟩
    · rw [heq]
    · rw [heq]
      unfold successState
      dsimp only
      rw [hsave]
      rfl

/-- Witness for C8: the two demo runs differing only in the CVV coincide,
and the demo payment record's `last4` is within bounds. -/
theorem payment_pci_safe_witness :
    handleConfirm (some "u1") (some "s1") { demoInputs with cvvInput := "123" } 7 true
        demoState =
      handleConfirm (some "u1") (some "s1") { demoInputs with cvvInput := "999" } 7 true
        demoState ∧
    ("4242" : String).length ≤ 4 := by
  obtain h := payment_pci_safe (some "u1") (some "s1") demoInputs 7 true demoState
    "123" "999"
  exact ⟨h.1, h.2.2.1 "u1" "s1" "b0" 0 "4242" (by decide)⟩

/-- C10: every line item in the booking snapshot created by finalization
has quantity exactly 1, and the booking's base price equals the plain sum
of the normalized unit prices of the selected items that exist in the
catalog. -/
theorem booking_lines_qty_one (uid? sid? : Option String) (inp : PaymentInputs)
    (now : Int) (commitOk : Bool) (st : DBState) (bid : String) :
    (handleConfirm uid? sid? inp now commitOk st).2 = .ok bid →
    ∃ b, (handleConfirm uid? sid? inp now commitOk st).1.bookings.getLast? =
        some (bid, b) ∧
      (∀ line ∈ b.snap.carts, line.qty = 1) ∧
      ∃ sid sess d, sid? = some sid ∧ assocGet st.sessions sid = some sess ∧
        sess.draft = some d ∧
        b.snap.totals.base =
          (d.carts.filterMap (fun cid =>
            (assocGet st.carts cid).map (fun doc => normalizePrice doc.daily_price))).sum := by
  intro hok
  rcases handleConfirm_spec uid? sid? inp now commitOk st with
    ⟨_, e, heq⟩ | ⟨uid, sid, sess, d, hu, hsid, hsess, hd, hc, _, _, heq⟩
  · rw [heq] at hok
    cases hok
  · rw [heq] at hok
    obtain rfl : ("b" ++ toString st.bookings.length) = bid := by simpa using hok
    rw [heq]
    unfold successState
    dsimp only
    refine ⟨bookingOf uid sid now st d, List.getLast?_concat _, ?_, sid, sess, d,
      hsid, hsess, hd, ?_⟩
    · exact resolveLines_qty st d.carts
    · exact resolveLines_base st d.carts

/-- Witness for C10: the demo finalization's snapshot has all quantities 1. -/
theorem booking_lines_qty_one_witness :
    ∃ b, (handleConfirm (some "u1") (some "s1") demoInputs 7 true
        demoState).1.bookings.getLast? = some ("b0", b) ∧
      ∀ line ∈ b.snap.carts, line.qty = 1 := by
  obtain ⟨b, hb, hqty, -⟩ :=
    booking_lines_qty_one (some "u1") (some "s1") demoInputs 7 true demoState "b0" rfl
  exact ⟨b, hb, hqty⟩

/-- C9: when the composite index is missing, the prefill load recovers
transparently (it reports success, never surfacing the index error), and —
whenever the customer's payment records have pairwise-distinct creation
keys — the unordered-fetch-plus-client-sort fallback selects exactly the
record the indexed `orderBy createdAt desc, limit 1` query would have
returned. -/
theorem index_fallback_equiv (db : List (String × PaymentRec)) (uid : String)
    (h : (filterByCustomer db uid).Pairwise
      (fun a b => tsKey a.2.createdAt ≠ tsKey b.2.createdAt)) :
    (loadMostRecentPayment false db uid).isOk = true ∧
    loadMostRecentPayment false db uid = loadMostRecentPayment true db uid := by
  constructor
  · rfl
  · show Except.ok (fallbackMostRecent db uid) = Except.ok (indexedMostRecent db uid)
    congr 1
    unfold fallbackMostRecent indexedMostRecent
    set l := filterByCustomer db uid with hl
    have hperm2 : List.Perm (List.insertionSort idLe l) l :=
      List.perm_insertionSort idLe l
    cases h1 : (List.insertionSort keyGe (List.insertionSort idLe l)).head? with
    | none =>
        have hnil : List.insertionSort idLe l = [] := head_sort_keyGe_none _ h1
        have hplnil : List.Perm ([] : List (String × PaymentRec)) l := hnil ▸ hperm2
        have hlnil : l = [] := hplnil.nil_eq.symm
        cases h2 : (List.insertionSort keyGe l).head? with
        | none => rfl
        | some b =>
            obtain ⟨hbmem, _⟩ := head_sort_keyGe_max l b h2
            rw [hlnil] at hbmem
            cases hbmem
    | some a =>
        obtain ⟨hamem, hamax⟩ := head_sort_keyGe_max _ a h1
        have hamem' : a ∈ l := hperm2.mem_iff.mp hamem
        have hamax' : ∀ b ∈ l, tsKey b.2.createdAt ≤ tsKey a.2.createdAt := by
          intro b hb
          exact hamax b (hperm2.mem_iff.mpr hb)
        cases h2 : (List.insertionSort keyGe l).head? with
        | none =>
            have : l = [] := head_sort_keyGe_none _ h2
            rw [this] at hamem'
            cases hamem'
        | some b =>
            obtain ⟨hbmem, hbmax⟩ := head_sort_keyGe_max l b h2
            have hkey : tsKey a.2.createdAt = tsKey b.2.createdAt :=
              le_antisymm (hbmax a hamem') (hamax' b hbmem)
            rw [pairwise_key_inj (fun x => tsKey x.2.createdAt) l h a hamem' b hbmem hkey]

/-- Witness for C9 on the concrete payment store with distinct keys. -/
theorem index_fallback_equiv_witness :
    (loadMostRecentPayment false demoPayments "u1").isOk = true ∧
    loadMostRecentPayment false demoPayments "u1" =
      loadMostRecentPayment true demoPayments "u1" :=
  index_fallback_equiv demoPayments "u1" (by decide)

end KartRentals
